import Mathlib

set_option maxRecDepth 40000

/-!
Verification development for the `kaggle` repository (bank-churn
classification pipeline and digit recognizer).

The Python sources are shallowly embedded:

* a pandas `DataFrame` of customer rows becomes a `List Record`
  (respectively `List ERecord`, `List EncRow`, `List FRow` as the pipeline
  adds/encodes/drops columns);
* machine floats become `ℚ`, with the IEEE division artifacts that matter
  to the pipeline (`inf`/`nan` from division by zero) captured by `PFloat`;
* the stateful scikit-learn transformers become records holding an optional
  fit state (`none` = unfitted; transforming while unfitted raises
  `NotFittedError`, embedded as `Option.none`) plus an explicit fit-call
  counter;
* the external TF-IDF + TruncatedSVD text embedding is abstracted as a
  function parameter `embed` (it is a library black box; every theorem
  below holds for an arbitrary embedding function);
* fallible library calls (`reshape` with a wrong size, `transform` on an
  unfitted transformer, out-of-range `iloc`, dictionary `KeyError`) are
  embedded with `Option`.
-/

/-- A pandas float64 value: either a finite rational or one of the IEEE
division artifacts (`inf`, `-inf`, `nan`) that integer-column division by
zero produces. -/
inductive PFloat where
  | finite (q : ℚ)
  | posInf
  | negInf
  | nan
deriving DecidableEq

/-- `true` iff the value is an ordinary finite number (not an `inf`/`nan`
division artifact). -/
def PFloat.isFinite : PFloat → Bool
  | .finite _ => true
  | _ => false

/-- Pandas division of two integer-valued columns entrywise: ordinary
rational division when the divisor is nonzero, and the float64 artifacts
`±inf` / `nan` (never an exception) when the divisor is zero. -/
def floatDivInt (a b : ℤ) : PFloat :=
  if b = 0 then
    if a = 0 then .nan else if 0 < a then .posInf else .negInf
  else .finite ((a : ℚ) / (b : ℚ))

/-- `np.round` on a scalar: round half to even (banker's rounding). -/
def roundHalfEven (q : ℚ) : ℤ :=
  let f := ⌊q⌋
  let r := q - (f : ℚ)
  if r < 1/2 then f
  else if 1/2 < r then f + 1
  else if f % 2 = 0 then f else f + 1

/-- One raw customer row of `train.csv` / `test.csv` (label column already
dropped by the caller, as in `main.py`). -/
structure Record where
  id : ℤ
  customerId : ℤ
  surname : String
  creditScore : ℚ
  geography : String
  gender : String
  age : ℚ
  tenure : ℤ
  balance : ℚ
  numOfProducts : ℤ
  hasCrCard : ℤ
  isActiveMember : ℤ
  estimatedSalary : ℚ
deriving DecidableEq

/-- A row after `engineer_features` has added the derived columns in place.
The untouched raw columns are kept whole in `base`. -/
structure ERecord where
  base : Record
  surnameLength : ℕ
  ageCategory : ℤ
  isSenior : ℤ
  isActiveByCrCard : ℤ
  productsPerTenure : PFloat
  surGeoGendSal : String
deriving DecidableEq

/-- `str()` of an `np.round`ed float64, e.g. `"38190.0"`. -/
def npFloatStr (n : ℤ) : String := toString n ++ ".0"

/-- The per-row content of `engineer_features` (utils.py lines 40-53):
each assignment `df["..."] = ...` adds one derived column. -/
def engineer (r : Record) : ERecord where
  base := r
  surnameLength := r.surname.length
  ageCategory := roundHalfEven (r.age / 20)
  isSenior := if r.age ≥ 60 then 1 else 0
  isActiveByCrCard := r.hasCrCard * r.isActiveMember
  productsPerTenure := floatDivInt r.tenure r.numOfProducts
  surGeoGendSal :=
    toString r.customerId ++ r.surname ++ r.geography ++ r.gender
      ++ npFloatStr (roundHalfEven r.estimatedSalary)

/-- `engineer_features` on a whole frame: the column assignments act
row-wise, in place. -/
def engineer_features (df : List Record) : List ERecord := df.map engineer

example : floatDivInt 3 0 = .posInf := by decide
example : roundHalfEven (5/2) = 2 := by norm_num [roundHalfEven]
example : roundHalfEven (7/2) = 4 := by norm_num [roundHalfEven]
example : npFloatStr 100 = "100.0" := by decide

/-! ### Categorical encoding: `pd.get_dummies` followed by `.cat.codes`

`encode_features` expands each of the four categorical columns into one
indicator column per distinct value (columns ordered by value), then
compresses every indicator column back through
`astype("category").cat.codes`.  For a boolean column holding both `False`
and `True` the codes are `False ↦ 0`, `True ↦ 1`; a constant column has a
single category and codes to all `0`. -/

/-- Insertion into a sorted list (used to model pandas' sorted dummy-column
order; the comparison is a parameter). -/
def insertSorted {α : Type} (le : α → α → Bool) (x : α) : List α → List α
  | [] => [x]
  | y :: ys => if le x y then x :: y :: ys else y :: insertSorted le x ys

/-- Insertion sort with the given comparison. -/
def sortBy {α : Type} (le : α → α → Bool) (l : List α) : List α :=
  l.foldr (insertSorted le) []

/-- The distinct values of a column, sorted: the dummy columns
`pd.get_dummies` creates for it, in order. -/
def uniqueSorted {α : Type} [DecidableEq α] (le : α → α → Bool) (col : List α) : List α :=
  sortBy le col.dedup

/-- For each dummy column (distinct value `u` of the source column), the
`cat.codes` value an entry `True` gets: `1` when the indicator column also
contains a `False` (two categories), `0` when it is constantly `True`
(single category).  An entry `False` always codes to `0`. -/
def encodeColKey {α : Type} [DecidableEq α] (le : α → α → Bool) (col : List α) :
    List (α × ℕ) :=
  (uniqueSorted le col).map fun u => (u, if col.any (fun w => w ≠ u) then 1 else 0)

/-- One row's encoded values for one categorical column, given the
precomputed dummy-column key. -/
def rowEncode {α : Type} [DecidableEq α] (key : List (α × ℕ)) (v : α) : List ℕ :=
  key.map fun uc => if v = uc.1 then uc.2 else 0

/-- `get_dummies` + `cat.codes` for one column. -/
def encodeCol {α : Type} [DecidableEq α] (le : α → α → Bool) (col : List α) :
    List (List ℕ) :=
  col.map (rowEncode (encodeColKey le col))

/-- `≤` on `ℤ` as a Bool comparison. -/
def intLe (a b : ℤ) : Bool := decide (a ≤ b)

/-- `≤` on `String` as a Bool comparison. -/
def strLe (a b : String) : Bool := !decide (b < a)

/-! ### The text-embedding encoder (`DEFAULT_PIPELINE`)

The `ColumnTransformer` of two `TfidfVectorizer → TruncatedSVD(3)`
pipelines over the `Surname` and `SurGeoGendSal` columns.  Its numerical
content is an external library black box, abstracted as the `embed`
function; what the repository's own logic relies on is its fit-once /
transform-many statefulness, modelled explicitly. -/

structure TextEncoder where
  /-- The library's embedding math: fitted training text ↦ row text ↦
  numeric embedding columns (a black box; arbitrary here). -/
  embed : List (String × String) → String × String → List ℚ
  /-- `none` while unfitted; `some tr` after `fit` on training text `tr`. -/
  fitState : Option (List (String × String))
  /-- Number of `fit` calls received (instrumentation for the fit-once
  invariant; no pipeline decision reads it). -/
  fitCount : ℕ

/-- `encoder.fit(df[["Surname", "SurGeoGendSal"]])`. -/
def TextEncoder.fit (e : TextEncoder) (tr : List (String × String)) : TextEncoder :=
  { e with fitState := some tr, fitCount := e.fitCount + 1 }

/-- `encoder.transform(df[["Surname", "SurGeoGendSal"]])`: raises
`NotFittedError` (here `none`) when the encoder was never fitted. -/
def TextEncoder.transform (e : TextEncoder) (rows : List (String × String)) :
    Option (List (List ℚ)) :=
  e.fitState.map fun tr => rows.map (e.embed tr)

/-- A freshly constructed, unfitted `DEFAULT_PIPELINE` (utils.py lines
11-24), parameterised by the library's embedding math. -/
def DEFAULT_PIPELINE (embed : List (String × String) → String × String → List ℚ) :
    TextEncoder :=
  ⟨embed, none, 0⟩

/-- The two text columns handed to the encoder. -/
def textPair (r : ERecord) : String × String := (r.base.surname, r.surGeoGendSal)

/-- A row after `encode_features`: the four categorical columns are
replaced by their encoded expansion, and the text-embedding columns are
appended. -/
structure EncRow where
  id : ℤ
  customerId : ℤ
  surname : String
  creditScore : ℚ
  age : ℚ
  tenure : ℤ
  balance : ℚ
  hasCrCard : ℤ
  isActiveMember : ℤ
  estimatedSalary : ℚ
  surnameLength : ℕ
  isSenior : ℤ
  isActiveByCrCard : ℤ
  productsPerTenure : PFloat
  surGeoGendSal : String
  encoded : List ℕ
  textEmbedding : List ℚ
deriving DecidableEq

/-- Assemble one encoded row from an engineered row, its categorical codes
and its text-embedding values. -/
def mkEncRow (r : ERecord) (enc : List ℕ) (emb : List ℚ) : EncRow where
  id := r.base.id
  customerId := r.base.customerId
  surname := r.base.surname
  creditScore := r.base.creditScore
  age := r.base.age
  tenure := r.base.tenure
  balance := r.base.balance
  hasCrCard := r.base.hasCrCard
  isActiveMember := r.base.isActiveMember
  estimatedSalary := r.base.estimatedSalary
  surnameLength := r.surnameLength
  isSenior := r.isSenior
  isActiveByCrCard := r.isActiveByCrCard
  productsPerTenure := r.productsPerTenure
  surGeoGendSal := r.surGeoGendSal
  encoded := enc
  textEmbedding := emb

/-- The categorical-code columns of a frame: the per-feature blocks in the
order of the `features` default `[Geography, Gender, NumOfProducts,
AgeCategory]`, concatenated per row. -/
def encodedCats (rows : List ERecord) : List (List ℕ) :=
  let cGeo := encodeCol strLe (rows.map fun r => r.base.geography)
  let cGen := encodeCol strLe (rows.map fun r => r.base.gender)
  let cNum := encodeCol intLe (rows.map fun r => r.base.numOfProducts)
  let cAge := encodeCol intLe (rows.map fun r => r.ageCategory)
  List.zipWith (· ++ ·) (List.zipWith (· ++ ·) (List.zipWith (· ++ ·) cGeo cGen) cNum) cAge

/-- `encode_features` (utils.py lines 56-82): fit the text encoder exactly
when `is_train`, expand the categorical columns, transform the text columns
with the (possibly just fitted) encoder, and append the embedding columns.
Fails (`None`) when `is_train=False` and the supplied encoder is unfitted
(`NotFittedError` at `encoder.transform`). -/
def encode_features (rows : List ERecord) (is_train : Bool) (encoder : TextEncoder) :
    Option (List EncRow × TextEncoder) :=
  let encoder := if is_train then encoder.fit (rows.map textPair) else encoder
  let dfEncoded := encodedCats rows
  match encoder.transform (rows.map textPair) with
  | none => none
  | some name_components =>
      some (List.zipWith (fun (re : ERecord × List ℕ) emb => mkEncRow re.1 re.2 emb)
              (rows.zip dfEncoded) name_components, encoder)

/-- A row after `drop_features` has removed the identifier/text columns
`[id, CustomerId, Surname, SurGeoGendSal]`. -/
structure FRow where
  creditScore : ℚ
  age : ℚ
  tenure : ℤ
  balance : ℚ
  hasCrCard : ℤ
  isActiveMember : ℤ
  estimatedSalary : ℚ
  surnameLength : ℕ
  isSenior : ℤ
  isActiveByCrCard : ℤ
  productsPerTenure : PFloat
  encoded : List ℕ
  textEmbedding : List ℚ
deriving DecidableEq

/-- Drop the identifier/text columns of one row. -/
def dropRow (r : EncRow) : FRow where
  creditScore := r.creditScore
  age := r.age
  tenure := r.tenure
  balance := r.balance
  hasCrCard := r.hasCrCard
  isActiveMember := r.isActiveMember
  estimatedSalary := r.estimatedSalary
  surnameLength := r.surnameLength
  isSenior := r.isSenior
  isActiveByCrCard := r.isActiveByCrCard
  productsPerTenure := r.productsPerTenure
  encoded := r.encoded
  textEmbedding := r.textEmbedding

/-- `drop_features` (utils.py lines 85-89). -/
def drop_features (rows : List EncRow) : List FRow := rows.map dropRow

/-! ### `MinMaxScaler` over the four numeric columns

scikit-learn's `MinMaxScaler` with the default feature range: `fit` records
each column's min and max; `transform` maps `x ↦ (x - min) / (max - min)`,
a zero range being replaced by `1` (sklearn's `_handle_zeros_in_scale`).
`fit` on an empty frame and `transform` on an unfitted scaler raise. -/

/-- Fitted state: `(min, max)` of each scaled column
`[CreditScore, Age, Balance, EstimatedSalary]`. -/
structure ScalerFit where
  creditScore : ℚ × ℚ
  age : ℚ × ℚ
  balance : ℚ × ℚ
  estimatedSalary : ℚ × ℚ
deriving DecidableEq

structure MinMaxScaler where
  fitState : Option ScalerFit
  /-- Number of `fit` calls received (instrumentation only). -/
  fitCount : ℕ

/-- A freshly constructed, unfitted `MinMaxScaler()`. -/
def MinMaxScaler.new : MinMaxScaler := ⟨none, 0⟩

/-- Min and max of a column; `none` on an empty column (sklearn refuses to
fit on 0 samples). -/
def colMinMax (l : List ℚ) : Option (ℚ × ℚ) :=
  match l with
  | [] => none
  | x :: xs => some (xs.foldl min x, xs.foldl max x)

/-- `scaler.fit(df[features])`. -/
def MinMaxScaler.fit (s : MinMaxScaler) (rows : List FRow) : Option MinMaxScaler := do
  let cs ← colMinMax (rows.map FRow.creditScore)
  let ag ← colMinMax (rows.map FRow.age)
  let ba ← colMinMax (rows.map FRow.balance)
  let es ← colMinMax (rows.map FRow.estimatedSalary)
  some ⟨some ⟨cs, ag, ba, es⟩, s.fitCount + 1⟩

/-- Scale one value by a fitted `(min, max)` pair. -/
def scale1 (mm : ℚ × ℚ) (x : ℚ) : ℚ :=
  (x - mm.1) / (if mm.2 - mm.1 = 0 then 1 else mm.2 - mm.1)

/-- Scale the four numeric columns of one row. -/
def scaleRow (st : ScalerFit) (r : FRow) : FRow :=
  { r with
    creditScore := scale1 st.creditScore r.creditScore
    age := scale1 st.age r.age
    balance := scale1 st.balance r.balance
    estimatedSalary := scale1 st.estimatedSalary r.estimatedSalary }

/-- `scaler.transform(df[features])`: `NotFittedError` (here `none`) when
the scaler was never fitted. -/
def MinMaxScaler.transform (s : MinMaxScaler) (rows : List FRow) :
    Option (List FRow) :=
  s.fitState.map fun st => rows.map (scaleRow st)

/-- `standardize_features` (utils.py lines 92-110): fit the scaler exactly
when `is_train`, then scale the numeric columns in the frame.  (The
`features` argument always takes its nonempty default in this repository,
so the `len(features) == 0` early return never triggers and the feature set
is fixed structurally here.) -/
def standardize_features (rows : List FRow) (is_train : Bool) (scaler : MinMaxScaler) :
    Option (List FRow × MinMaxScaler) := do
  let scaler ← if is_train then scaler.fit rows else some scaler
  let rows' ← scaler.transform rows
  some (rows', scaler)

/-- `data_pipeline` (utils.py lines 27-37): engineer, encode, drop,
standardize.  The default arguments of the Python signature are the
unfitted `MinMaxScaler()` and `DEFAULT_PIPELINE` objects
(`MinMaxScaler.new` and `DEFAULT_PIPELINE embed` here). -/
def data_pipeline (df : List Record) (is_train : Bool) (scaler : MinMaxScaler)
    (encoder : TextEncoder) : Option (List FRow × TextEncoder × MinMaxScaler) :=
  (encode_features (engineer_features df) is_train encoder).bind fun p =>
    (standardize_features (drop_features p.1) is_train scaler).bind fun q =>
      some (q.1, p.2, q.2)

/-! ### Properties of the feature pipeline's transformer state -/

/-- In training mode `encode_features` fits the encoder on the two text
columns and always succeeds. -/
lemma encode_features_true (rows : List ERecord) (enc : TextEncoder) :
    encode_features rows true enc
      = some (List.zipWith (fun (re : ERecord × List ℕ) emb => mkEncRow re.1 re.2 emb)
                (rows.zip (encodedCats rows)) ((rows.map textPair).map
                  (enc.embed (rows.map textPair))),
              enc.fit (rows.map textPair)) := rfl

/-- In evaluation mode with an unfitted encoder, `encode_features` raises
(`NotFittedError`). -/
lemma encode_features_false_unfit (rows : List ERecord)
    (embed : List (String × String) → String × String → List ℚ) (n : ℕ) :
    encode_features rows false ⟨embed, none, n⟩ = none := rfl

/-- In evaluation mode with a fitted encoder, `encode_features` succeeds
and returns the encoder unchanged. -/
lemma encode_features_false_fit (rows : List ERecord) (enc : TextEncoder)
    (tr : List (String × String)) (h : enc.fitState = some tr) :
    encode_features rows false enc
      = some (List.zipWith (fun (re : ERecord × List ℕ) emb => mkEncRow re.1 re.2 emb)
                (rows.zip (encodedCats rows)) ((rows.map textPair).map (enc.embed tr)),
              enc) := by
  simp [encode_features, TextEncoder.transform, h]

/-- The fitted state `standardize_features` computes on a nonempty frame. -/
def scalerFitOf (r : FRow) (rs : List FRow) : ScalerFit :=
  ⟨((rs.map FRow.creditScore).foldl min r.creditScore,
    (rs.map FRow.creditScore).foldl max r.creditScore),
   ((rs.map FRow.age).foldl min r.age, (rs.map FRow.age).foldl max r.age),
   ((rs.map FRow.balance).foldl min r.balance, (rs.map FRow.balance).foldl max r.balance),
   ((rs.map FRow.estimatedSalary).foldl min r.estimatedSalary,
    (rs.map FRow.estimatedSalary).foldl max r.estimatedSalary)⟩

/-- In training mode on a nonempty frame, `standardize_features` fits the
scaler and scales every row by the frame's column ranges. -/
lemma standardize_features_true_cons (r : FRow) (rs : List FRow) (sc : MinMaxScaler) :
    standardize_features (r :: rs) true sc
      = some ((r :: rs).map (scaleRow (scalerFitOf r rs)),
              ⟨some (scalerFitOf r rs), sc.fitCount + 1⟩) := by
  simp [standardize_features, MinMaxScaler.fit, MinMaxScaler.transform, colMinMax,
    scalerFitOf]

/-- In training mode on an empty frame, `standardize_features` raises
(sklearn refuses to fit on 0 samples). -/
lemma standardize_features_true_nil (sc : MinMaxScaler) :
    standardize_features [] true sc = none := rfl

/-- In evaluation mode with an unfitted scaler, `standardize_features`
raises (`NotFittedError`). -/
lemma standardize_features_false_unfit (rows : List FRow) (n : ℕ) :
    standardize_features rows false ⟨none, n⟩ = none := rfl

/-- In evaluation mode with a fitted scaler, `standardize_features`
succeeds and returns the scaler unchanged. -/
lemma standardize_features_false_fit (rows : List FRow) (sc : MinMaxScaler)
    (st : ScalerFit) (h : sc.fitState = some st) :
    standardize_features rows false sc = some (rows.map (scaleRow st), sc) := by
  simp [standardize_features, MinMaxScaler.transform, h]

/-- Claim C1: for every call of `data_pipeline` and of its sub-steps
`encode_features` and `standardize_features`, the text-embedding encoder
and the min-max scaler are fitted exactly when `is_train` is `true`: every
returned transformer's fit-call count grows by one in training mode and is
unchanged in evaluation mode, so fitted parameters supplied to a
non-training call are never refitted. -/
theorem encoder_scaler_fit_iff_train :
    (∀ (rows : List ERecord) (it : Bool) (enc : TextEncoder),
      (encode_features rows it enc).map (fun x => x.2.fitCount)
        = (encode_features rows it enc).map
            (fun _ => enc.fitCount + (if it then 1 else 0)))
    ∧ (∀ (rows : List FRow) (it : Bool) (sc : MinMaxScaler),
      (standardize_features rows it sc).map (fun x => x.2.fitCount)
        = (standardize_features rows it sc).map
            (fun _ => sc.fitCount + (if it then 1 else 0)))
    ∧ (∀ (df : List Record) (it : Bool) (sc : MinMaxScaler) (enc : TextEncoder),
      (data_pipeline df it sc enc).map (fun x => (x.2.1.fitCount, x.2.2.fitCount))
        = (data_pipeline df it sc enc).map
            (fun _ => (enc.fitCount + (if it then 1 else 0),
                       sc.fitCount + (if it then 1 else 0)))) := by
  have henc : ∀ (rows : List ERecord) (it : Bool) (enc : TextEncoder),
      (encode_features rows it enc).map (fun x => x.2.fitCount)
        = (encode_features rows it enc).map
            (fun _ => enc.fitCount + (if it then 1 else 0)) := by
    intro rows it enc
    cases it with
    | true => rw [encode_features_true] ; rfl
    | false =>
        cases h : enc.fitState with
        | none =>
            obtain ⟨em, fs, n⟩ := enc
            cases fs with
            | none => rw [encode_features_false_unfit] ; rfl
            | some tr => simp at h
        | some tr => rw [encode_features_false_fit rows enc tr h] ; simp
  have hstd : ∀ (rows : List FRow) (it : Bool) (sc : MinMaxScaler),
      (standardize_features rows it sc).map (fun x => x.2.fitCount)
        = (standardize_features rows it sc).map
            (fun _ => sc.fitCount + (if it then 1 else 0)) := by
    intro rows it sc
    cases it with
    | true =>
        cases rows with
        | nil => rw [standardize_features_true_nil] ; rfl
        | cons r rs => rw [standardize_features_true_cons] ; rfl
    | false =>
        cases h : sc.fitState with
        | none =>
            obtain ⟨fs, n⟩ := sc
            cases fs with
            | none => rw [standardize_features_false_unfit] ; rfl
            | some st => simp at h
        | some st => rw [standardize_features_false_fit rows sc st h] ; simp
  refine ⟨henc, hstd, ?_⟩
  intro df it sc enc
  cases he : encode_features (engineer_features df) it enc with
  | none => simp [data_pipeline, he]
  | some p =>
      obtain ⟨dfC, e'⟩ := p
      have h1 := henc (engineer_features df) it enc
      rw [he] at h1
      simp at h1
      cases hs : standardize_features (drop_features dfC) it sc with
      | none => simp [data_pipeline, he, hs]
      | some q =>
          obtain ⟨dfS, s'⟩ := q
          have h2 := hstd (drop_features dfC) it sc
          rw [hs] at h2
          simp at h2
          simp [data_pipeline, he, hs, h1, h2]

/-- Claim C3: `data_pipeline` called with `is_train = false` and the
default (never-fitted) encoder and scaler objects fails for every input
record set and every embedding math: the transform of an unfitted
transformer is undefined (`NotFittedError`). -/
theorem data_pipeline_eval_unfit_fails :
    ∀ (df : List Record)
      (embed : List (String × String) → String × String → List ℚ),
      data_pipeline df false MinMaxScaler.new (DEFAULT_PIPELINE embed) = none := by
  intro df embed
  rfl

/-- Claim C5: applying `data_pipeline` in evaluation mode leaves the
supplied fitted transformers untouched (they are returned as given), and
re-applying it to the same raw records with the transformers returned by
the first run reproduces the first run's output exactly. -/
theorem data_pipeline_eval_idempotent :
    ∀ (df : List Record) (sc : MinMaxScaler) (enc : TextEncoder),
      ((data_pipeline df false sc enc).map (fun x => (x.2.1, x.2.2))
        = (data_pipeline df false sc enc).map (fun _ => (enc, sc)))
      ∧ ((data_pipeline df false sc enc).bind
            (fun x => data_pipeline df false x.2.2 x.2.1)
          = data_pipeline df false sc enc) := by
  intro df sc enc
  have hstate : (data_pipeline df false sc enc).map (fun x => (x.2.1, x.2.2))
      = (data_pipeline df false sc enc).map (fun _ => (enc, sc)) := by
    cases h : enc.fitState with
    | none =>
        obtain ⟨em, fs, n⟩ := enc
        cases fs with
        | none => simp [data_pipeline, encode_features_false_unfit]
        | some tr => simp at h
    | some tr =>
        cases h2 : sc.fitState with
        | none =>
            obtain ⟨fs, n⟩ := sc
            cases fs with
            | none =>
                simp [data_pipeline, encode_features_false_fit _ enc tr h,
                  standardize_features_false_unfit]
            | some st => simp at h2
        | some st =>
            simp [data_pipeline, encode_features_false_fit _ enc tr h,
              standardize_features_false_fit _ sc st h2]
  refine ⟨hstate, ?_⟩
  cases h : data_pipeline df false sc enc with
  | none => rfl
  | some x =>
      rw [h] at hstate
      simp only [Option.map_some', Option.some.injEq, Prod.mk.injEq] at hstate
      show data_pipeline df false x.2.2 x.2.1 = some x
      rw [hstate.1, hstate.2]
      exact h

/-! ### Claim C7: the unguarded `ProductsPerTenure` division -/

/-- Claim C7: `engineer_features` computes `ProductsPerTenure` as
`Tenure / NumOfProducts` with no guard on the divisor; a row with
`NumOfProducts = 0` yields a division artifact (`inf`/`nan`, a non-finite
float) while the computation still succeeds rather than raising. -/
theorem productsPerTenure_division_artifact :
    ∀ r : Record,
      (engineer r).productsPerTenure = floatDivInt r.tenure r.numOfProducts
      ∧ (r.numOfProducts = 0 → (engineer r).productsPerTenure.isFinite = false) := by
  intro r
  refine ⟨rfl, fun h => ?_⟩
  show (floatDivInt r.tenure r.numOfProducts).isFinite = false
  rw [h]
  unfold floatDivInt
  rw [if_pos rfl]
  split_ifs <;> rfl

/-- A customer row with zero products (and nonzero tenure). -/
def zeroProductsRecord : Record :=
  ⟨1, 2, "ab", 600, "France", "Male", 40, 5, 0, 0, 1, 1, 100⟩

theorem productsPerTenure_division_artifact_witness :
    zeroProductsRecord.numOfProducts = 0
    ∧ (engineer zeroProductsRecord).productsPerTenure.isFinite = false
    ∧ (engineer zeroProductsRecord).productsPerTenure = PFloat.posInf :=
  ⟨rfl, (productsPerTenure_division_artifact zeroProductsRecord).2 rfl, by decide⟩

/-! ### The digit recognizer: early-stopping training loop

`main.py` (digit-recognizer) initialises `best_validation_loss = 1000000`
and, for `i in range(params["num_epochs"])`, runs one epoch to obtain
`val_loss` and breaks when `val_loss >= best_validation_loss`, otherwise
updating the best.  The per-epoch validation losses themselves come from
the external training machinery, abstracted as a sequence `losses`. -/

/-- `params["num_epochs"]` in the digit recognizer. -/
def num_epochs : ℕ := 40

/-- The epoch loop: `best` is the best validation loss seen so far, `i`
the current epoch, the last argument the number of epochs left; returns
`some i` when early stopping triggers at epoch `i`, `none` when all epochs
run without triggering. -/
def earlyStopLoop (losses : ℕ → ℚ) (best : ℚ) (i : ℕ) : ℕ → Option ℕ
  | 0 => none
  | fuel + 1 =>
      if losses i ≥ best then some i
      else earlyStopLoop losses (losses i) (i + 1) fuel

/-- The digit recognizer's training loop (main.py lines 315-330). -/
def digit_training_run (losses : ℕ → ℚ) : Option ℕ :=
  earlyStopLoop losses 1000000 0 num_epochs

/-- The best validation loss seen before epoch `i` (the initial sentinel
`1000000` included). -/
def bestBefore (losses : ℕ → ℚ) (i : ℕ) : ℚ :=
  ((List.range i).map losses).foldl min 1000000

lemma bestBefore_succ (losses : ℕ → ℚ) (i : ℕ) :
    bestBefore losses (i + 1) = min (bestBefore losses i) (losses i) := by
  simp [bestBefore, List.range_succ]

lemma earlyStopLoop_spec (losses : ℕ → ℚ) :
    ∀ (fuel i : ℕ),
      (∀ e, earlyStopLoop losses (bestBefore losses i) i fuel = some e →
        i ≤ e ∧ e < i + fuel ∧ bestBefore losses e ≤ losses e
          ∧ ∀ j, i ≤ j → j < e → losses j < bestBefore losses j)
      ∧ (earlyStopLoop losses (bestBefore losses i) i fuel = none →
          ∀ j, i ≤ j → j < i + fuel → losses j < bestBefore losses j) := by
  intro fuel
  induction fuel with
  | zero =>
      intro i
      refine ⟨fun e he => by simp [earlyStopLoop] at he, fun _ j hij hj => ?_⟩
      omega
  | succ n ih =>
      intro i
      by_cases hcond : losses i ≥ bestBefore losses i
      · have hrun : earlyStopLoop losses (bestBefore losses i) i (n + 1) = some i := by
          simp [earlyStopLoop, hcond]
        refine ⟨fun e he => ?_, fun hnone => ?_⟩
        · rw [hrun] at he
          obtain rfl : i = e := by simpa using he
          exact ⟨le_refl i, by omega, hcond, fun j hij hj => by omega⟩
        · rw [hrun] at hnone ; simp at hnone
      · push_neg at hcond
        have hbest : bestBefore losses (i + 1) = losses i := by
          rw [bestBefore_succ]
          exact min_eq_right hcond.le
        have hrun : earlyStopLoop losses (bestBefore losses i) i (n + 1)
            = earlyStopLoop losses (bestBefore losses (i + 1)) (i + 1) n := by
          simp [earlyStopLoop, not_le.mpr hcond, hbest]
        obtain ⟨ihsome, ihnone⟩ := ih (i + 1)
        refine ⟨fun e he => ?_, fun hnone => ?_⟩
        · rw [hrun] at he
          obtain ⟨h1, h2, h3, h4⟩ := ihsome e he
          refine ⟨by omega, by omega, h3, fun j hij hj => ?_⟩
          rcases Nat.eq_or_lt_of_le hij with rfl | hlt
          · exact hcond
          · exact h4 j hlt hj
        · rw [hrun] at hnone
          intro j hij hj
          rcases Nat.eq_or_lt_of_le hij with rfl | hlt
          · exact hcond
          · exact ihnone hnone j hlt (by omega)

/-- Claim C6: the digit-recognizer training loop halts at the first epoch
whose validation loss is ≥ the best validation loss seen so far (all
earlier epochs strictly improved on the running best, so it never halts on
a strictly improving epoch), and it runs at most `num_epochs` epochs; when
every epoch strictly improves, no early stop occurs. -/
theorem digit_early_stopping :
    ∀ losses : ℕ → ℚ,
      (∀ e, digit_training_run losses = some e →
        e < num_epochs ∧ bestBefore losses e ≤ losses e
          ∧ ∀ j, j < e → losses j < bestBefore losses j)
      ∧ (digit_training_run losses = none →
          ∀ j, j < num_epochs → losses j < bestBefore losses j) := by
  intro losses
  have h0 : bestBefore losses 0 = 1000000 := rfl
  have hrun : digit_training_run losses
      = earlyStopLoop losses (bestBefore losses 0) 0 num_epochs := by
    rw [h0] ; rfl
  obtain ⟨hsome, hnone⟩ := earlyStopLoop_spec losses num_epochs 0
  refine ⟨fun e he => ?_, fun he j hj => ?_⟩
  · rw [hrun] at he
    obtain ⟨_, h2, h3, h4⟩ := hsome e he
    exact ⟨by omega, h3, fun j hj => h4 j (Nat.zero_le j) hj⟩
  · rw [hrun] at he
    exact hnone he j (Nat.zero_le j) (by omega)

/-- A demonstration validation-loss sequence: strict improvement for two
epochs, then a failure to improve at epoch 2. -/
def demoLosses (i : ℕ) : ℚ := if i = 0 then 5 else if i = 1 then 3 else 4

theorem digit_early_stopping_witness :
    digit_training_run demoLosses = some 2
    ∧ (2 < num_epochs ∧ bestBefore demoLosses 2 ≤ demoLosses 2
        ∧ ∀ j, j < 2 → demoLosses j < bestBefore demoLosses j) := by
  have h : digit_training_run demoLosses = some 2 := by
    show earlyStopLoop demoLosses 1000000 0 40 = some 2
    rw [show (40 : ℕ) = 37 + 1 + 1 + 1 from rfl]
    norm_num [earlyStopLoop, demoLosses]
  exact ⟨h, (digit_early_stopping demoLosses).1 2 h⟩

/-! ### The digit recognizer: `columns_to_image` -/

/-- `np.reshape` into `r` rows of `c` consecutive elements each. -/
def reshapeChunks {α : Type} (c : ℕ) : ℕ → List α → List (List α)
  | 0, _ => []
  | r + 1, l => l.take c :: reshapeChunks c r (l.drop c)

/-- `columns_to_image` (digit-recognizer main.py lines 62-66):
`np.array(columns).reshape((28, 28))`, which raises `ValueError` unless
the input holds exactly 784 items. -/
def columns_to_image (columns : List ℤ) : Option (List (List ℤ)) :=
  if columns.length = 28 * 28 then some (reshapeChunks 28 28 columns) else none

lemma reshapeChunks_length {α : Type} (c : ℕ) :
    ∀ (r : ℕ) (l : List α), (reshapeChunks c r l).length = r := by
  intro r
  induction r with
  | zero => intro l ; rfl
  | succ n ih => intro l ; simp [reshapeChunks, ih]

lemma reshapeChunks_getRow {α : Type} (c : ℕ) :
    ∀ (r i : ℕ) (l : List α), i < r →
      (reshapeChunks c r l)[i]? = some ((l.drop (c * i)).take c) := by
  intro r
  induction r with
  | zero => intro i l hi ; omega
  | succ n ih =>
      intro i l hi
      cases i with
      | zero => simp [reshapeChunks]
      | succ m =>
          have h := ih m (l.drop c) (by omega)
          simp only [reshapeChunks, List.getElem?_cons_succ, h, List.drop_drop]
          congr 3
          ring

/-- Claim C9: `columns_to_image` on a 784-length sequence of zeros returns
the 28×28 all-zero array; in general, on any 784-length input it returns
28 rows, row `i` being the 28 consecutive input elements starting at
position `28·i`, in input order. -/
theorem columns_to_image_reshape :
    (columns_to_image (List.replicate 784 0)
      = some (List.replicate 28 (List.replicate 28 0)))
    ∧ ∀ l : List ℤ, l.length = 784 →
        ((columns_to_image l).map (fun rows => rows.length) = some 28
        ∧ ∀ i, i < 28 →
            (columns_to_image l).map (fun rows => rows[i]?)
              = some (some ((l.drop (28 * i)).take 28))) := by
  refine ⟨by decide, fun l hl => ?_⟩
  have hif : columns_to_image l = some (reshapeChunks 28 28 l) := by
    simp [columns_to_image, hl]
  rw [hif]
  refine ⟨by simp [reshapeChunks_length], fun i hi => ?_⟩
  simp only [Option.map_some']
  rw [reshapeChunks_getRow 28 28 i l hi]

theorem columns_to_image_reshape_witness :
    ((List.replicate 784 (1:ℤ)).length = 784 ∧ 3 < 28)
    ∧ (columns_to_image (List.replicate 784 (1:ℤ))).map (fun rows => rows[3]?)
        = some (some (((List.replicate 784 (1:ℤ)).drop (28 * 3)).take 28)) :=
  ⟨⟨List.length_replicate 784 1, by omega⟩,
    ((columns_to_image_reshape.2 (List.replicate 784 (1:ℤ))
        (List.length_replicate 784 1)).2 3 (by omega))⟩

/-! ### Claim C4: the pipeline is a per-row map, preserving count and order -/

/-- The categorical-code block of one row, given the whole frame (the dummy
columns come from the frame's distinct values): the four feature blocks
`[Geography, Gender, NumOfProducts, AgeCategory]` concatenated. -/
def catsRow (rows : List ERecord) (er : ERecord) : List ℕ :=
  rowEncode (encodeColKey strLe (rows.map fun r => r.base.geography)) er.base.geography
    ++ rowEncode (encodeColKey strLe (rows.map fun r => r.base.gender)) er.base.gender
    ++ rowEncode (encodeColKey intLe (rows.map fun r => r.base.numOfProducts))
        er.base.numOfProducts
    ++ rowEncode (encodeColKey intLe (rows.map fun r => r.ageCategory)) er.ageCategory

/-- Embed one row's text pair with a fitted encoder (the unfitted branch is
never reached on a successful pipeline run). -/
def embedWith (e : TextEncoder) (p : String × String) : List ℚ :=
  match e.fitState with
  | some tr => e.embed tr p
  | none => []

/-- Scale one row with a fitted scaler (the unfitted branch is never
reached on a successful pipeline run). -/
def rowScale (s : MinMaxScaler) (fr : FRow) : FRow :=
  match s.fitState with
  | some st => scaleRow st fr
  | none => fr

/-- What `data_pipeline` does to the row at any one position, as a function
of that row plus the frame-level fitted values (dummy keys from the whole
frame, the returned encoder `e` and scaler `s`). -/
def pipelineRow (df : List Record) (e : TextEncoder) (s : MinMaxScaler) (r : Record) :
    FRow :=
  rowScale s (dropRow (mkEncRow (engineer r) (catsRow (engineer_features df) (engineer r))
    (embedWith e (textPair (engineer r)))))

lemma zipWith_map_map {α β γ δ : Type} (h : β → γ → δ) (f : α → β) (g : α → γ) :
    ∀ l : List α, List.zipWith h (l.map f) (l.map g) = l.map fun x => h (f x) (g x) := by
  intro l
  induction l with
  | nil => rfl
  | cons x xs ih => simp [ih]

lemma zip_map_right {α β : Type} (g : α → β) :
    ∀ l : List α, l.zip (l.map g) = l.map fun x => (x, g x) := by
  intro l
  induction l with
  | nil => rfl
  | cons x xs ih => simp [ih]

lemma encodedCats_eq_map (rows : List ERecord) :
    encodedCats rows = rows.map (catsRow rows) := by
  simp only [encodedCats, encodeCol, List.map_map]
  rw [zipWith_map_map, zipWith_map_map, zipWith_map_map]
  rfl

lemma encode_some_map (rows : List ERecord) (it : Bool) (enc : TextEncoder)
    (out : List EncRow) (e : TextEncoder)
    (h : encode_features rows it enc = some (out, e)) :
    out = rows.map fun er => mkEncRow er (catsRow rows er) (embedWith e (textPair er)) := by
  have hzip : ∀ (e' : TextEncoder) (tr : List (String × String)),
      e'.fitState = some tr →
      List.zipWith (fun (re : ERecord × List ℕ) emb => mkEncRow re.1 re.2 emb)
          (rows.zip (encodedCats rows)) ((rows.map textPair).map (e'.embed tr))
        = rows.map fun er => mkEncRow er (catsRow rows er) (embedWith e' (textPair er)) := by
    intro e' tr hfit
    rw [encodedCats_eq_map, zip_map_right, List.map_map, zipWith_map_map]
    apply List.map_congr_left
    intro er _
    simp [embedWith, hfit]
  cases it with
  | true =>
      rw [encode_features_true] at h
      simp only [Option.some.injEq, Prod.mk.injEq] at h
      obtain ⟨h1, h2⟩ := h
      rw [← h1, ← h2]
      exact hzip (enc.fit (rows.map textPair)) (rows.map textPair) rfl
  | false =>
      cases hfit : enc.fitState with
      | none =>
          obtain ⟨em, fs, n⟩ := enc
          cases fs with
          | none => rw [encode_features_false_unfit] at h ; cases h
          | some tr => simp at hfit
      | some tr =>
          rw [encode_features_false_fit rows enc tr hfit] at h
          simp only [Option.some.injEq, Prod.mk.injEq] at h
          obtain ⟨h1, h2⟩ := h
          rw [← h1, ← h2]
          exact hzip enc tr hfit

lemma standardize_some_map (rows : List FRow) (it : Bool) (sc : MinMaxScaler)
    (out : List FRow) (s : MinMaxScaler)
    (h : standardize_features rows it sc = some (out, s)) :
    out = rows.map (rowScale s) := by
  cases it with
  | true =>
      cases rows with
      | nil => rw [standardize_features_true_nil] at h ; cases h
      | cons r rs =>
          rw [standardize_features_true_cons] at h
          simp only [Option.some.injEq, Prod.mk.injEq] at h
          obtain ⟨h1, h2⟩ := h
          rw [← h1, ← h2]
          rfl
  | false =>
      cases hfit : sc.fitState with
      | none =>
          obtain ⟨fs, n⟩ := sc
          cases fs with
          | none => rw [standardize_features_false_unfit] at h ; cases h
          | some st => simp at hfit
      | some st =>
          rw [standardize_features_false_fit rows sc st hfit] at h
          simp only [Option.some.injEq, Prod.mk.injEq] at h
          obtain ⟨h1, h2⟩ := h
          rw [← h1, ← h2]
          apply List.map_congr_left
          intro fr _
          simp [rowScale, hfit]

/-- On any successful run, the output feature matrix is the input frame
mapped row-by-row through `pipelineRow`. -/
lemma data_pipeline_some_map (df : List Record) (it : Bool) (sc : MinMaxScaler)
    (enc : TextEncoder) (out : List FRow) (e : TextEncoder) (s : MinMaxScaler)
    (h : data_pipeline df it sc enc = some (out, e, s)) :
    out = df.map (pipelineRow df e s) := by
  unfold data_pipeline at h
  cases he : encode_features (engineer_features df) it enc with
  | none => rw [he] at h ; simp at h
  | some p =>
      rw [he] at h
      simp only [Option.some_bind] at h
      cases hs : standardize_features (drop_features p.1) it sc with
      | none => rw [hs] at h ; simp at h
      | some q =>
          rw [hs] at h
          simp only [Option.some_bind, Option.some.injEq, Prod.mk.injEq] at h
          obtain ⟨h1, h2, h3⟩ := h
          have hc := encode_some_map _ it enc p.1 p.2 he
          have hstd := standardize_some_map _ it sc q.1 q.2 hs
          rw [← h1, ← h2, ← h3, hstd, hc]
          unfold drop_features engineer_features
          simp only [List.map_map]
          apply List.map_congr_left
          intro r _
          rfl

/-- Claim C4: for every input record set, the feature matrix returned by
`data_pipeline` has exactly as many rows as the input, and it is the input
mapped position-by-position through a per-row function (`pipelineRow`), so
row order is preserved and no row is filtered out by any step. -/
theorem data_pipeline_preserves_rows :
    ∀ (df : List Record) (it : Bool) (sc : MinMaxScaler) (enc : TextEncoder),
      ((data_pipeline df it sc enc).map (fun x => x.1.length)
        = (data_pipeline df it sc enc).map (fun _ => df.length))
      ∧ ((data_pipeline df it sc enc).map (fun x => x.1)
        = (data_pipeline df it sc enc).map
            (fun x => df.map (pipelineRow df x.2.1 x.2.2))) := by
  intro df it sc enc
  cases h : data_pipeline df it sc enc with
  | none => exact ⟨rfl, rfl⟩
  | some x =>
      obtain ⟨out, e, s⟩ := x
      have := data_pipeline_some_map df it sc enc out e s h
      subst this
      simp

/-! ### Claim C2: `kfold_prediction` aggregates by an unweighted mean

`kfold_prediction` (main.py lines 34-79) iterates over the stratified
splits (produced by the external `StratifiedKFold`, supplied here as the
`splits` parameter; `StratifiedKFold(n_splits=num_folds)` yields exactly
`num_folds` of them), runs the per-fold pipeline/model work, fills row
`fold_idx` of the `num_folds × len(X_test)` prediction matrix, and takes
`test_predictions.mean(axis=0)`.  The three-model soft-voting ensemble
(`build_model`, `fit`, `predict_proba`) is an external library black box,
abstracted as `fitModel : train features → train labels → row → positive
class probability`.  The fold's printed accuracy/ROC-AUC diagnostics touch
no returned value and are not modelled. -/

/-- `df.iloc[idx]` for positional indices; fails on an out-of-range
index. -/
def ilocs {α : Type} (l : List α) (idx : List ℕ) : Option (List α) :=
  idx.mapM fun i => l[i]?

/-- The body of one iteration of the fold loop (main.py lines 46-72):
extract the fold's train/validation rows, fit the pipeline on the training
split, apply it to the validation split (whose predictions feed only the
printed diagnostics) and to the test set, and return the fold's
positive-class probability predictions for every test row. -/
def fold_step (X : List Record) (y : List ℤ) (X_test : List Record)
    (embed : List (String × String) → String × String → List ℚ)
    (fitModel : List FRow → List ℤ → FRow → ℚ)
    (split : List ℕ × List ℕ) : Option (List ℚ) :=
  (ilocs X split.1).bind fun X_train =>
  (ilocs y split.1).bind fun y_train =>
  (ilocs X split.2).bind fun X_val =>
  (ilocs y split.2).bind fun _y_val =>
  (data_pipeline X_train true MinMaxScaler.new (DEFAULT_PIPELINE embed)).bind fun ptr =>
  (data_pipeline X_val false ptr.2.2 ptr.2.1).bind fun _pval =>
  (data_pipeline X_test false ptr.2.2 ptr.2.1).bind fun ptest =>
  some (ptest.1.map (fitModel ptr.1 y_train))

/-- Fill the preallocated `num_folds × len(X_test)` prediction matrix row
by row, one fold per iteration, in split order; assigning a row of the
wrong length would be a numpy shape mismatch. -/
def fillRows (fstep : List ℕ × List ℕ → Option (List ℚ)) (tlen : ℕ) :
    List (List ℕ × List ℕ) → List (List ℚ) → Option (List (List ℚ))
  | [], acc => some acc
  | split :: rest, acc =>
      (fstep split).bind fun preds =>
        if preds.length = tlen then fillRows fstep tlen rest (acc ++ [preds])
        else none

/-- Each fold's predictions computed independently, in split order (the
reference the final mean is compared against). -/
def collectFolds (fstep : List ℕ × List ℕ → Option (List ℚ)) :
    List (List ℕ × List ℕ) → Option (List (List ℚ))
  | [] => some []
  | split :: rest =>
      (fstep split).bind fun preds =>
        (collectFolds fstep rest).bind fun M => some (preds :: M)

/-- `kfold_prediction` (main.py lines 34-79): fill the prediction matrix,
average it over the fold axis (`test_predictions.mean(axis=0)`, i.e.
divide each column's sum by `num_folds`), and pair the result with the
test ids (`X_test[["id"]]` plus the new `Exited` column). -/
def kfold_prediction (X : List Record) (y : List ℤ) (X_test : List Record)
    (embed : List (String × String) → String × String → List ℚ)
    (fitModel : List FRow → List ℤ → FRow → ℚ)
    (num_folds : ℕ) (splits : List (List ℕ × List ℕ)) : Option (List (ℤ × ℚ)) :=
  (fillRows (fold_step X y X_test embed fitModel) X_test.length splits []).bind
    fun M =>
      some (List.zipWith (fun r p => (r.id, p)) X_test
        ((List.range X_test.length).map fun j =>
          (M.map fun row => row.getD j 0).sum / (num_folds : ℚ)))

lemma data_pipeline_length (df : List Record) (it : Bool) (sc : MinMaxScaler)
    (enc : TextEncoder) (out : List FRow) (e : TextEncoder) (s : MinMaxScaler)
    (h : data_pipeline df it sc enc = some (out, e, s)) : out.length = df.length := by
  rw [data_pipeline_some_map df it sc enc out e s h]
  simp

/-- A successful fold produces exactly one prediction per test row. -/
lemma fold_step_some_length (X : List Record) (y : List ℤ) (X_test : List Record)
    (embed : List (String × String) → String × String → List ℚ)
    (fitModel : List FRow → List ℤ → FRow → ℚ) (split : List ℕ × List ℕ)
    (preds : List ℚ) (h : fold_step X y X_test embed fitModel split = some preds) :
    preds.length = X_test.length := by
  simp only [fold_step, Option.bind_eq_some] at h
  obtain ⟨Xtr, _, ytr, _, Xv, _, yv, _, ptr, _, pval, _, ptest, hptest, hfin⟩ := h
  obtain rfl : ptest.1.map (fitModel ptr.1 ytr) = preds := by simpa using hfin
  rw [List.length_map]
  exact data_pipeline_length X_test false ptr.2.2 ptr.2.1 ptest.1 ptest.2.1 ptest.2.2
    hptest

lemma fillRows_eq_collectFolds (fstep : List ℕ × List ℕ → Option (List ℚ)) (tlen : ℕ)
    (hlen : ∀ split preds, fstep split = some preds → preds.length = tlen) :
    ∀ (splits : List (List ℕ × List ℕ)) (acc : List (List ℚ)),
      fillRows fstep tlen splits acc = (collectFolds fstep splits).map (acc ++ ·) := by
  intro splits
  induction splits with
  | nil => intro acc ; simp [fillRows, collectFolds]
  | cons split rest ih =>
      intro acc
      cases h : fstep split with
      | none => simp [fillRows, collectFolds, h]
      | some preds =>
          have := hlen split preds h
          simp only [fillRows, collectFolds, h, Option.some_bind, this, if_pos rfl, ih]
          cases hM : collectFolds fstep rest with
          | none => rfl
          | some M => simp

lemma zipWith_pair_fst (l2 : List ℚ) :
    ∀ (l1 : List Record), l1.length = l2.length →
      (List.zipWith (fun r p => (r.id, p)) l1 l2).map Prod.fst = l1.map Record.id := by
  induction l2 with
  | nil => intro l1 h ; rw [List.length_nil] at h ; rw [List.length_eq_zero.mp h] ; rfl
  | cons p ps ih =>
      intro l1 h
      cases l1 with
      | nil => simp at h
      | cons r rs =>
          simp only [List.zipWith_cons_cons, List.map_cons]
          rw [ih rs (by simpa using h)]

lemma zipWith_pair_snd (l2 : List ℚ) :
    ∀ (l1 : List Record), l1.length = l2.length →
      (List.zipWith (fun r p => (r.id, p)) l1 l2).map Prod.snd = l2 := by
  induction l2 with
  | nil => intro l1 h ; rw [List.length_nil] at h ; rw [List.length_eq_zero.mp h] ; rfl
  | cons p ps ih =>
      intro l1 h
      cases l1 with
      | nil => simp at h
      | cons r rs =>
          simp only [List.zipWith_cons_cons, List.map_cons, List.cons.injEq]
          exact ⟨trivial, ih rs (by simpa using h)⟩

/-- Claim C2: for every test row, the final churn prediction returned by
`kfold_prediction` is the unweighted arithmetic mean, over all folds, of
that row's per-fold positive-class probability (column sum of the per-fold
prediction matrix divided by the number of folds) — no weighting by fold
score enters the aggregation — and the returned ids are the test ids in
order. -/
theorem kfold_prediction_mean_of_folds :
    ∀ (X : List Record) (y : List ℤ) (X_test : List Record)
      (embed : List (String × String) → String × String → List ℚ)
      (fitModel : List FRow → List ℤ → FRow → ℚ)
      (splits : List (List ℕ × List ℕ)),
      ((kfold_prediction X y X_test embed fitModel splits.length splits).map
          (fun res => res.map Prod.fst)
        = (kfold_prediction X y X_test embed fitModel splits.length splits).map
            (fun _ => X_test.map Record.id))
      ∧ ((kfold_prediction X y X_test embed fitModel splits.length splits).map
          (fun res => res.map Prod.snd)
        = (collectFolds (fold_step X y X_test embed fitModel) splits).map
            (fun M => (List.range X_test.length).map fun j =>
              (M.map fun row => row.getD j 0).sum / (splits.length : ℚ))) := by
  intro X y X_test embed fitModel splits
  have hfill := fillRows_eq_collectFolds (fold_step X y X_test embed fitModel)
    X_test.length (fold_step_some_length X y X_test embed fitModel) splits []
  have hkf : kfold_prediction X y X_test embed fitModel splits.length splits
      = (collectFolds (fold_step X y X_test embed fitModel) splits).bind fun M =>
          some (List.zipWith (fun r p => (r.id, p)) X_test
            ((List.range X_test.length).map fun j =>
              (M.map fun row => row.getD j 0).sum / (splits.length : ℚ))) := by
    unfold kfold_prediction
    rw [hfill]
    cases hM : collectFolds (fold_step X y X_test embed fitModel) splits with
    | none => rfl
    | some M => simp
  rw [hkf]
  cases hM : collectFolds (fold_step X y X_test embed fitModel) splits with
  | none => refine ⟨?_, ?_⟩ <;> trivial
  | some M =>
      have hlen : X_test.length
          = ((List.range X_test.length).map fun j =>
              (M.map fun row => row.getD j 0).sum / (splits.length : ℚ)).length := by
        simp
      simp only [Option.some_bind, Option.map_some']
      exact ⟨by rw [zipWith_pair_fst _ X_test hlen],
        by rw [zipWith_pair_snd _ X_test hlen]⟩

/-! ### Claim C10: the caller-visible frame mutation -/

/-- The state of the caller's DataFrame object after `data_pipeline`
returns.  `engineer_features` assigns its six derived columns directly on
the object the caller passed in (`df["..."] = ...` mutates in place and
overwrites no raw column); every later step operates on fresh frames
(`pd.get_dummies` and `encoder.transform` build new objects,
`pd.concat(...).drop(...)` on line 72 of utils.py rebinds the local name
to a new frame, and the scaled-column assignment inside
`standardize_features` writes into that new frame), so the caller's object
is exactly the engineered frame, scaled and encoded values appearing only
in the returned matrix. -/
def data_pipeline_callerView (df : List Record) : List ERecord :=
  engineer_features df

/-- Claim C10: after any `data_pipeline` call the caller's frame holds the
derived columns `SurnameLength`, `AgeCategory`, `IsSenior`,
`IsActiveByCrCard`, `ProductsPerTenure` and `SurGeoGendSal` added in place
by `engineer_features` — one engineered row per input row, in order —
while the values of all pre-existing raw columns are unchanged (recovering
exactly the original frame), the scaled and encoded values living only in
the returned matrix. -/
theorem data_pipeline_frame_effect :
    ∀ df : List Record,
      data_pipeline_callerView df = df.map engineer
      ∧ (data_pipeline_callerView df).map ERecord.base = df := by
  intro df
  refine ⟨rfl, ?_⟩
  show (df.map engineer).map ERecord.base = df
  rw [List.map_map]
  have h : ∀ r : Record, (ERecord.base ∘ engineer) r = r := fun r => rfl
  calc df.map (ERecord.base ∘ engineer) = df.map id := List.map_congr_left fun r _ => h r
    _ = df := List.map_id df

/-! ### Claim C8: `get_parameters` (model.py lines 25-77)

`get_parameters(None)` returns the baked-in per-model default parameter
dictionaries.  With a path, Python loads the serialized study
(`joblib.load(path).best_trial.params`) — external I/O, so the loaded
mapping is taken directly as input here — and for each `(key, value)` runs
`model, param = [x.strip() for x in key.split("__")]` (a `ValueError`
unless the split has exactly two parts) followed by
`param_dict[model][param] = value` (a `KeyError` unless `model` is a key;
the assignment overwrites the parameter or adds it). -/

/-- A Python parameter value as found in the model parameter
dictionaries. -/
inductive PVal where
  | pInt : ℤ → PVal
  | pRat : ℚ → PVal
  | pStr : String → PVal
  | pBool : Bool → PVal
  | pRatList : List ℚ → PVal
deriving DecidableEq

/-- One model's keyword-argument dictionary. -/
abbrev Params := List (String × PVal)

/-- The whole `param_dict`: model name ↦ keyword arguments. -/
abbrev ParamDict := List (String × Params)

/-- The baked-in `param_dict` defaults (model.py lines 26-67). -/
def defaultParamDict : ParamDict :=
  [("lgbm",
    [("verbose", .pInt (-1)),
     ("random_state", .pInt 503),
     ("force_row_wise", .pBool true),
     ("n_estimators", .pInt 960),
     ("subsample", .pRat 0.4604756677696442),
     ("colsample_bytree", .pRat 0.465375841230126),
     ("learning_rate", .pRat 0.04531704129811222),
     ("max_depth", .pInt 6),
     ("num_leaves", .pInt 803),
     ("reg_alpha", .pRat 0.4132098753297654),
     ("reg_lambda", .pRat 0.9992674466487466)]),
   ("xgb",
    [("verbosity", .pInt 0),
     ("random_state", .pInt 503),
     ("objective", .pStr "binary:logistic"),
     ("n_estimators", .pInt 973),
     ("learning_rate", .pRat 0.0786311558099196),
     ("max_depth", .pInt 9),
     ("subsample", .pRat 0.6451633803299511),
     ("colsample_bytree", .pRat 0.20800229296622322),
     ("min_child_weight", .pInt 11)]),
   ("cat",
    [("verbose", .pBool false),
     ("random_state", .pInt 503),
     ("iterations", .pInt 1395),
     ("learning_rate", .pRat 0.025092883785253036),
     ("depth", .pInt 6),
     ("subsample", .pRat 0.32039321811073496),
     ("colsample_bylevel", .pRat 0.47765607925544096),
     ("min_data_in_leaf", .pInt 30)]),
   ("vc",
    [("voting", .pStr "soft"),
     ("n_jobs", .pInt (-1)),
     ("verbose", .pBool false),
     ("weights",
      .pRatList [3.0146183474429327, 0.5762900154092979, 1.5605382149604368])])]

/-- Python `key.split("__")` over the character list: leftmost,
non-overlapping occurrences of the two-character separator. -/
def splitUU (acc : List Char) : List Char → List (List Char)
  | '_' :: '_' :: rest => acc.reverse :: splitUU [] rest
  | c :: rest => splitUU (c :: acc) rest
  | [] => [acc.reverse]

/-- ASCII whitespace for `str.strip()`. -/
def pyWhitespace (c : Char) : Bool :=
  (c = ' ') || (c = '\t') || (c = '\n') || (c = '\r')

/-- Python `str.strip()`. -/
def pyStrip (s : String) : String :=
  String.mk (((s.toList.dropWhile pyWhitespace).reverse.dropWhile pyWhitespace).reverse)

/-- `model, param = [x.strip() for x in key.split("__")]`: defined exactly
when the split yields two parts (otherwise Python raises `ValueError`). -/
def parseKey (k : String) : Option (String × String) :=
  match (splitUU [] k.toList).map (fun cs => pyStrip (String.mk cs)) with
  | [m, p] => some (m, p)
  | _ => none

/-- First-match lookup in an association list (a Python dict read). -/
def findVal {α : Type} : List (String × α) → String → Option α
  | [], _ => none
  | (k', v) :: rest, k => if k' = k then some v else findVal rest k

/-- Python dict assignment `d[k] = v`: overwrite the existing entry in
place, or append a new one. -/
def setVal {α : Type} (l : List (String × α)) (k : String) (v : α) : List (String × α) :=
  if l.any (fun kv => kv.1 = k) then l.map fun kv => if kv.1 = k then (k, v) else kv
  else l ++ [(k, v)]

/-- `param_dict[model][param] = value`: `KeyError` (here `none`) when
`model` is not a key of the outer dictionary. -/
def updateModelParam (d : ParamDict) (m p : String) (v : PVal) : Option ParamDict :=
  match findVal d m with
  | none => none
  | some _ => some (d.map fun kv => if kv.1 = m then (kv.1, setVal kv.2 p v) else kv)

/-- One iteration of the override loop (model.py lines 73-75). -/
def applyOverride (d : ParamDict) (kv : String × PVal) : Option ParamDict :=
  match parseKey kv.1 with
  | none => none
  | some mp => updateModelParam d mp.1 mp.2 kv.2

/-- The whole override loop, in mapping order. -/
def overrideAll (d : ParamDict) : List (String × PVal) → Option ParamDict
  | [] => some d
  | kv :: rest => (applyOverride d kv).bind fun d' => overrideAll d' rest

/-- `get_parameters` (model.py lines 25-77): the defaults untouched when
no hyperparameter source is given, otherwise the defaults overridden by
the loaded best-trial mapping. -/
def get_parameters (hyperparameters : Option (List (String × PVal))) :
    Option ParamDict :=
  match hyperparameters with
  | none => some defaultParamDict
  | some results => overrideAll defaultParamDict results

/-- Read `param_dict[m][p]`. -/
def findVal2 (d : ParamDict) (m p : String) : Option PVal :=
  (findVal d m).bind fun ps => findVal ps p

example : parseKey "lgbm__max_depth" = some ("lgbm", "max_depth") := by decide
example : parseKey " vc__lgbm_weight " = some ("vc", "lgbm_weight") := by decide
example : parseKey "vc___weight" = some ("vc", "_weight") := by decide
example : parseKey "nounderscore" = none := by decide
example : parseKey "a__b__c" = none := by decide


lemma findVal_cons {α : Type} (a : String) (b : α) (rest : List (String × α))
    (k : String) :
    findVal ((a, b) :: rest) k = if a = k then some b else findVal rest k := rfl

lemma findVal_map_update (d : ParamDict) (m : String) (f : Params → Params) :
    findVal (d.map fun kv => if kv.1 = m then (kv.1, f kv.2) else kv) m
      = (findVal d m).map f := by
  induction d with
  | nil => rfl
  | cons kv rest ih =>
      obtain ⟨k, ps⟩ := kv
      simp only [List.map_cons]
      by_cases hk : k = m
      · rw [if_pos hk, findVal_cons, findVal_cons, if_pos hk, if_pos hk]
        rfl
      · rw [if_neg hk, findVal_cons, findVal_cons, if_neg hk, if_neg hk]
        exact ih

lemma findVal_map_update_ne (d : ParamDict) (m m' : String) (f : Params → Params)
    (hne : m' ≠ m) :
    findVal (d.map fun kv => if kv.1 = m then (kv.1, f kv.2) else kv) m'
      = findVal d m' := by
  induction d with
  | nil => rfl
  | cons kv rest ih =>
      obtain ⟨k, ps⟩ := kv
      simp only [List.map_cons]
      by_cases hk : k = m
      · have hk' : ¬ k = m' := fun h => hne (h ▸ hk ▸ rfl)
        rw [if_pos hk, findVal_cons, findVal_cons, if_neg hk', if_neg hk']
        exact ih
      · rw [if_neg hk, findVal_cons, findVal_cons]
        by_cases hk' : k = m'
        · rw [if_pos hk', if_pos hk']
        · rw [if_neg hk', if_neg hk']
          exact ih

lemma findVal_map_set (l : List (String × PVal)) (k : String) (v : PVal) :
    findVal (l.map fun kv => if kv.1 = k then (k, v) else kv) k
      = if l.any (fun kv => kv.1 = k) then some v else none := by
  induction l with
  | nil => rfl
  | cons kv rest ih =>
      obtain ⟨k0, w⟩ := kv
      simp only [List.map_cons, List.any_cons]
      by_cases hk : k0 = k
      · rw [if_pos hk, findVal_cons, if_pos rfl, if_pos (by simp [hk])]
      · rw [if_neg hk, findVal_cons, if_neg hk, ih]
        by_cases h2 : rest.any (fun kv => kv.1 = k)
        · rw [if_pos h2, if_pos (by simp [h2])]
        · rw [if_neg h2, if_neg (by simp [hk, h2])]

lemma findVal_map_set_ne (l : List (String × PVal)) (k k' : String) (v : PVal)
    (hne : k' ≠ k) :
    findVal (l.map fun kv => if kv.1 = k then (k, v) else kv) k' = findVal l k' := by
  induction l with
  | nil => rfl
  | cons kv rest ih =>
      obtain ⟨k0, w⟩ := kv
      simp only [List.map_cons]
      by_cases hk : k0 = k
      · have hk' : ¬ k = k' := fun h => hne h.symm
        have hk0' : ¬ k0 = k' := fun h => hne (h ▸ hk ▸ rfl)
        rw [if_pos hk, findVal_cons, findVal_cons, if_neg hk', if_neg hk0']
        exact ih
      · rw [if_neg hk, findVal_cons, findVal_cons]
        by_cases hk' : k0 = k'
        · rw [if_pos hk', if_pos hk']
        · rw [if_neg hk', if_neg hk']
          exact ih

lemma findVal_append_single {α : Type} (l : List (String × α)) (k k' : String) (v : α) :
    findVal (l ++ [(k, v)]) k'
      = if (findVal l k').isSome then findVal l k'
        else if k = k' then some v else none := by
  induction l with
  | nil => simp [findVal, findVal_cons]
  | cons kv rest ih =>
      obtain ⟨k0, w⟩ := kv
      simp only [List.cons_append, findVal_cons]
      by_cases hk : k0 = k'
      · rw [if_pos hk, if_pos hk]
        rfl
      · rw [if_neg hk, if_neg hk, ih]

lemma findVal_any_none (l : List (String × PVal)) (k : String)
    (h : ¬ l.any (fun kv => kv.1 = k)) : findVal l k = none := by
  induction l with
  | nil => rfl
  | cons kv rest ih =>
      obtain ⟨k0, w⟩ := kv
      simp only [List.any_cons, Bool.or_eq_true, not_or] at h
      rw [findVal_cons, if_neg (by simpa using h.1)]
      exact ih h.2

lemma findVal_setVal_self (l : List (String × PVal)) (k : String) (v : PVal) :
    findVal (setVal l k v) k = some v := by
  unfold setVal
  by_cases h : l.any (fun kv => kv.1 = k)
  · rw [if_pos h, findVal_map_set, if_pos h]
  · rw [if_neg h, findVal_append_single, findVal_any_none l k h]
    simp

lemma findVal_setVal_ne (l : List (String × PVal)) (k k' : String) (v : PVal)
    (hne : k' ≠ k) : findVal (setVal l k v) k' = findVal l k' := by
  unfold setVal
  by_cases h : l.any (fun kv => kv.1 = k)
  · rw [if_pos h, findVal_map_set_ne l k k' v hne]
  · rw [if_neg h, findVal_append_single]
    cases hf : findVal l k' with
    | none => rw [if_neg (by simp), if_neg (fun hh => hne hh.symm)]
    | some w => rw [if_pos (by simp)]

lemma updateModelParam_self (d : ParamDict) (m p : String) (v : PVal) (d' : ParamDict)
    (h : updateModelParam d m p v = some d') : findVal2 d' m p = some v := by
  unfold updateModelParam at h
  cases hf : findVal d m with
  | none => rw [hf] at h ; cases h
  | some ps =>
      rw [hf] at h
      obtain rfl := Option.some.inj h
      unfold findVal2
      rw [findVal_map_update d m (fun ps2 => setVal ps2 p v), hf]
      simp only [Option.map_some', Option.some_bind]
      exact findVal_setVal_self ps p v

lemma updateModelParam_ne (d : ParamDict) (m p : String) (v : PVal) (d' : ParamDict)
    (h : updateModelParam d m p v = some d') (m' p' : String)
    (hne : m' ≠ m ∨ p' ≠ p) : findVal2 d' m' p' = findVal2 d m' p' := by
  unfold updateModelParam at h
  cases hf : findVal d m with
  | none => rw [hf] at h ; cases h
  | some ps =>
      rw [hf] at h
      obtain rfl := Option.some.inj h
      unfold findVal2
      by_cases hm : m' = m
      · subst hm
        rcases hne with hne | hne
        · exact absurd rfl hne
        · rw [findVal_map_update d m' (fun ps2 => setVal ps2 p v), hf]
          simp only [Option.map_some', Option.some_bind]
          exact findVal_setVal_ne ps p p' v hne
      · rw [findVal_map_update_ne d m m' (fun ps2 => setVal ps2 p v) hm]

lemma applyOverride_parse (d : ParamDict) (kv : String × PVal) (d' : ParamDict)
    (h : applyOverride d kv = some d') :
    ∃ mp, parseKey kv.1 = some mp ∧ updateModelParam d mp.1 mp.2 kv.2 = some d' := by
  unfold applyOverride at h
  cases hp : parseKey kv.1 with
  | none => rw [hp] at h ; cases h
  | some mp => rw [hp] at h ; exact ⟨mp, rfl, h⟩

lemma overrideAll_preserve (m p : String) :
    ∀ (ov : List (String × PVal)) (d : ParamDict),
      (∀ kv ∈ ov, parseKey kv.1 ≠ some (m, p)) →
      (overrideAll d ov).map (fun d' => findVal2 d' m p)
        = (overrideAll d ov).map (fun _ => findVal2 d m p) := by
  intro ov
  induction ov with
  | nil => intro d _ ; rfl
  | cons kv rest ih =>
      intro d h
      unfold overrideAll
      cases ha : applyOverride d kv with
      | none => rfl
      | some d1 =>
          simp only [Option.some_bind]
          obtain ⟨mp, hp, hu⟩ := applyOverride_parse d kv d1 ha
          have hne : m ≠ mp.1 ∨ p ≠ mp.2 := by
            by_contra hc
            push_neg at hc
            refine h kv (List.mem_cons_self kv rest) ?_
            rw [hp, hc.1, hc.2]
          have heq : findVal2 d1 m p = findVal2 d m p :=
            updateModelParam_ne d mp.1 mp.2 kv.2 d1 hu m p hne
          rw [ih d1 (fun kv2 hkv2 => h kv2 (List.mem_cons_of_mem kv hkv2)), heq]

lemma overrideAll_set (m p : String) (v : PVal) :
    ∀ (ov : List (String × PVal)) (d : ParamDict) (kv : String × PVal),
      ((ov.map fun kv2 => parseKey kv2.1).Nodup) → kv ∈ ov →
      parseKey kv.1 = some (m, p) → kv.2 = v →
      (overrideAll d ov).map (fun d' => findVal2 d' m p)
        = (overrideAll d ov).map (fun _ => some v) := by
  intro ov
  induction ov with
  | nil => intro d kv _ hmem ; simp at hmem
  | cons kv0 rest ih =>
      intro d kv hnd hmem hp hv
      simp only [List.map_cons, List.nodup_cons] at hnd
      obtain ⟨hn1, hn2⟩ := hnd
      unfold overrideAll
      cases ha : applyOverride d kv0 with
      | none => rfl
      | some d1 =>
          simp only [Option.some_bind]
          rcases List.mem_cons.mp hmem with rfl | hmem2
          · obtain ⟨mp, hp0, hu⟩ := applyOverride_parse d kv d1 ha
            have hmp : mp = (m, p) := by
              rw [hp0] at hp
              exact Option.some.inj hp
            subst hmp
            have hset : findVal2 d1 m p = some v := by
              rw [← hv]
              exact updateModelParam_self d m p kv.2 d1 hu
            have hrest : ∀ kv2 ∈ rest, parseKey kv2.1 ≠ some (m, p) := by
              intro kv2 hkv2 hcon
              refine hn1 ?_
              rw [hp, ← hcon]
              exact List.mem_map_of_mem _ hkv2
            rw [overrideAll_preserve m p rest d1 hrest, hset]
          · exact ih d1 kv hn2 hmem2 hp hv

/-- Claim C8: `get_parameters` with `hyperparameters = None` returns the
baked-in defaults unchanged; given a loaded best-trial mapping, every
entry whose key parses as `"<model>__<param>"` sets the returned
dictionary's `param_dict[model][param]` to the trial's value (keys
pairwise distinct after parsing, as dict keys are), and every
`(model, param)` slot no override key names keeps its default value. -/
theorem get_parameters_override_spec :
    (get_parameters none = some defaultParamDict)
    ∧ (∀ (ov : List (String × PVal)) (m p : String),
        (∀ kv ∈ ov, parseKey kv.1 ≠ some (m, p)) →
        (get_parameters (some ov)).map (fun d => findVal2 d m p)
          = (get_parameters (some ov)).map (fun _ => findVal2 defaultParamDict m p))
    ∧ (∀ (ov : List (String × PVal)) (kv : String × PVal) (m p : String),
        ((ov.map fun kv2 => parseKey kv2.1).Nodup) → kv ∈ ov →
        parseKey kv.1 = some (m, p) →
        (get_parameters (some ov)).map (fun d => findVal2 d m p)
          = (get_parameters (some ov)).map (fun _ => some kv.2)) := by
  refine ⟨rfl, ?_, ?_⟩
  · intro ov m p h
    exact overrideAll_preserve m p ov defaultParamDict h
  · intro ov kv m p hnd hmem hp
    exact overrideAll_set m p kv.2 ov defaultParamDict kv hnd hmem hp rfl

/-- A concrete one-entry best-trial mapping. -/
def demoOverrides : List (String × PVal) := [("lgbm__max_depth", PVal.pInt 3)]

theorem get_parameters_override_spec_witness :
    ((demoOverrides.map fun kv2 => parseKey kv2.1).Nodup
      ∧ ("lgbm__max_depth", PVal.pInt 3) ∈ demoOverrides
      ∧ parseKey "lgbm__max_depth" = some ("lgbm", "max_depth")
      ∧ (get_parameters (some demoOverrides)).isSome = true)
    ∧ (get_parameters (some demoOverrides)).map (fun d => findVal2 d "lgbm" "max_depth")
        = (get_parameters (some demoOverrides)).map (fun _ => some (PVal.pInt 3)) :=
  ⟨⟨by decide, by decide, by decide, by decide⟩,
    get_parameters_override_spec.2.2 demoOverrides ("lgbm__max_depth", PVal.pInt 3)
      "lgbm" "max_depth" (by decide) (by decide) (by decide)⟩
